import Mathlib

/-!
Verification development for the indicator-engine repository.

Shallow embedding conventions:
* C++ `double` values are modelled as exact reals (`ℝ`); the IEEE `NaN`
  sentinel is modelled by `Option ℝ` (`none` = NaN).  Raw OHLCV bar fields
  are modelled as `ℚ` (exact inputs), cast to `ℝ` inside the calculators.
* Stateful C++ structs (`RollingStats`, `RollingSum`, `RollingMax`,
  `RollingSlope`, `EmaState` from `src/indicators/base.h`) are records with
  explicit state passing; `push` mirrors the source line by line.
* Calculators write per-bar feature maps; the pipeline merges them into
  a `List IndicatorResult` exactly in the source's stage order.
* `Service::compute_for_ticker` is embedded with its external collaborators
  (bar store, feature store, upsert) as parameters; the list of batches it
  passes to the store's upsert is returned alongside the stats so that
  claims about store calls can be stated.
-/

namespace IndicatorEngine

/-- `EPS` from `base.h` (`constexpr double EPS = 1e-9`). -/
noncomputable def EPS : ℝ := 1 / 1000000000

/-- NaN-or-value: `none` models the IEEE NaN sentinel of the C++ code. -/
abbrev FVal := Option ℝ

/-- `OHLCVBar` from `base.h`.  Prices are exact rationals (inputs), ids are
integers (`int64_t`). -/
structure OHLCVBar where
  id : ℤ
  ticker_id : ℤ
  open' : ℚ
  high : ℚ
  low : ℚ
  close : ℚ
  volume : ℤ
  timestamp : ℤ
deriving DecidableEq

instance : Inhabited OHLCVBar := ⟨⟨0, 0, 0, 0, 0, 0, 0, 0⟩⟩

/-- A feature map: insertion-ordered association list, mirroring the
`unordered_map<string,double>` contents (order is unobservable in C++). -/
abbrev FeatureMap := List (String × FVal)

/-- `IndicatorResult` from `base.h`. -/
structure IndicatorResult where
  bar_id : ℤ
  features : FeatureMap

instance : Inhabited IndicatorResult := ⟨⟨0, []⟩⟩

/-- `safe_divide` from `base.h`: `num / (den + EPS)`. -/
noncomputable def safe_divide (num den : ℝ) : ℝ := num / (den + EPS)

/-- `log_return` from `base.h`: NaN when either price is `≤ 0`, else
`ln(current/lagged)`. -/
noncomputable def log_return (current lagged : ℝ) : FVal :=
  if lagged ≤ 0 ∨ current ≤ 0 then none else some (Real.log (current / lagged))

/-- `EmaState` from `base.h`.  `value = none` models the pre-seed NaN /
`initialized = false` state; the source's non-finite-input no-op branch is
unreachable in this exact-real model, where every pushed value is finite. -/
structure EmaState where
  value : FVal
  alpha : ℝ

noncomputable def EmaState.init (span : ℕ) : EmaState :=
  ⟨none, 2 / ((span : ℝ) + 1)⟩

noncomputable def EmaState.update (s : EmaState) (x : ℝ) : EmaState :=
  match s.value with
  | none => ⟨some x, s.alpha⟩
  | some v => ⟨some (s.alpha * x + (1 - s.alpha) * v), s.alpha⟩

/-- `RollingStats` from `base.h`: circular buffer plus running sum and
sum of squares. -/
structure RollingStats where
  buf : List ℝ
  window : ℕ
  pos : ℕ
  count : ℕ
  sum : ℝ
  sq_sum : ℝ

noncomputable def RollingStats.init (w : ℕ) : RollingStats :=
  ⟨List.replicate w 0, w, 0, 0, 0, 0⟩

/-- `RollingStats::push`: when the buffer is full the element at `pos` is
evicted from both running aggregates, then the new element is written. -/
noncomputable def RollingStats.push (s : RollingStats) (x : ℝ) : RollingStats :=
  if s.window ≤ s.count then
    let old := s.buf.getD s.pos 0
    ⟨s.buf.set s.pos x, s.window, (s.pos + 1) % s.window, s.count,
      s.sum - old + x, s.sq_sum - old * old + x * x⟩
  else
    ⟨s.buf.set s.pos x, s.window, (s.pos + 1) % s.window, s.count + 1,
      s.sum + x, s.sq_sum + x * x⟩

def RollingStats.full (s : RollingStats) : Prop := s.window ≤ s.count

instance (s : RollingStats) : Decidable s.full := by unfold RollingStats.full; infer_instance

/-- `RollingStats::mean`: NaN when empty, else `sum / count`. -/
noncomputable def RollingStats.mean (s : RollingStats) : FVal :=
  if s.count = 0 then none else some (s.sum / s.count)

/-- `RollingStats::variance`: NaN when `count < 2`, else
`sq_sum/count - mean²`. -/
noncomputable def RollingStats.variance (s : RollingStats) : FVal :=
  if s.count < 2 then none
  else some (s.sq_sum / s.count - (s.sum / s.count) * (s.sum / s.count))

/-- `RollingStats::std_dev`: `sqrt(variance)` when `variance ≥ 0`, NaN
otherwise (in particular NaN, not 0, on a negative variance). -/
noncomputable def RollingStats.std_dev (s : RollingStats) : FVal :=
  match s.variance with
  | none => none
  | some v => if 0 ≤ v then some (Real.sqrt v) else none

/-- `RollingStats::zscore`: NaN unless full; otherwise
`safe_divide(x - mean, std_dev)`, which is NaN whenever `std_dev` is NaN
(IEEE NaN propagation through the division). -/
noncomputable def RollingStats.zscore (s : RollingStats) (x : ℝ) : FVal :=
  if s.count < s.window then none
  else
    match s.std_dev, s.mean with
    | some sd, some m => some (safe_divide (x - m) sd)
    | _, _ => none

/-- push a whole sequence, oldest first. -/
noncomputable def RollingStats.pushAll (s : RollingStats) (xs : List ℝ) : RollingStats :=
  xs.foldl RollingStats.push s

/-- `RollingSum` from `base.h`. -/
structure RollingSum where
  buf : List ℝ
  window : ℕ
  pos : ℕ
  count : ℕ
  total : ℝ

noncomputable def RollingSum.init (w : ℕ) : RollingSum :=
  ⟨List.replicate w 0, w, 0, 0, 0⟩

noncomputable def RollingSum.push (s : RollingSum) (x : ℝ) : RollingSum :=
  if s.window ≤ s.count then
    ⟨s.buf.set s.pos x, s.window, (s.pos + 1) % s.window, s.count,
      s.total - s.buf.getD s.pos 0 + x⟩
  else
    ⟨s.buf.set s.pos x, s.window, (s.pos + 1) % s.window, s.count + 1,
      s.total + x⟩

def RollingSum.full (s : RollingSum) : Prop := s.window ≤ s.count

instance (s : RollingSum) : Decidable s.full := by unfold RollingSum.full; infer_instance

noncomputable def RollingSum.sum (s : RollingSum) : ℝ := s.total

/-- `RollingSum::mean`: `total / count` when non-empty, NaN otherwise. -/
noncomputable def RollingSum.mean (s : RollingSum) : FVal :=
  if 0 < s.count then some (s.total / s.count) else none

noncomputable def RollingSum.pushAll (s : RollingSum) (xs : List ℝ) : RollingSum :=
  xs.foldl RollingSum.push s

/-- projection of `RollingStats` onto the `RollingSum` fields: the two
structs implement the same circular-buffer discipline, `RollingStats`
additionally tracking the sum of squares. -/
noncomputable def RollingStats.toSum (s : RollingStats) : RollingSum :=
  ⟨s.buf, s.window, s.pos, s.count, s.sum⟩

/-- `RollingMax` from `base.h`.  The C++ seeds the buffer with `-infinity`;
those seed cells are never inspected by `max_val` (it scans only the first
`min(count, window)` cells, all previously written), so the model seeds
with 0 and returns `none` for an empty scan instead of `-infinity`. -/
structure RollingMax where
  buf : List ℝ
  window : ℕ
  pos : ℕ
  count : ℕ

noncomputable def RollingMax.init (w : ℕ) : RollingMax :=
  ⟨List.replicate w 0, w, 0, 0⟩

noncomputable def RollingMax.push (s : RollingMax) (x : ℝ) : RollingMax :=
  ⟨s.buf.set s.pos x, s.window, (s.pos + 1) % s.window,
    if s.count < s.window then s.count + 1 else s.count⟩

def RollingMax.full (s : RollingMax) : Prop := s.window ≤ s.count

instance (s : RollingMax) : Decidable s.full := by unfold RollingMax.full; infer_instance

/-- `RollingMax::max_val`: linear scan over the first `min(count, window)`
cells. -/
noncomputable def RollingMax.max_val (s : RollingMax) : FVal :=
  match s.buf.take (min s.count s.window) with
  | [] => none
  | x :: xs => some (xs.foldl max x)

/-- `RollingSlope` from `base.h`. -/
structure RollingSlope where
  buf : List ℝ
  window : ℕ
  pos : ℕ
  count : ℕ

noncomputable def RollingSlope.init (w : ℕ) : RollingSlope :=
  ⟨List.replicate w 0, w, 0, 0⟩

noncomputable def RollingSlope.push (s : RollingSlope) (x : ℝ) : RollingSlope :=
  ⟨s.buf.set s.pos x, s.window, (s.pos + 1) % s.window,
    if s.count < s.window then s.count + 1 else s.count⟩

def RollingSlope.full (s : RollingSlope) : Prop := s.window ≤ s.count

instance (s : RollingSlope) : Decidable s.full := by unfold RollingSlope.full; infer_instance

/-- the loop index mean `x_mean = (n-1)/2` of `RollingSlope::slope`. -/
noncomputable def RollingSlope.xmean (s : RollingSlope) : ℝ :=
  ((s.window : ℝ) - 1) / 2

/-- the buffered-value mean `y_mean` of `RollingSlope::slope`, reading the
buffer in chronological order starting at `pos`. -/
noncomputable def RollingSlope.ymean (s : RollingSlope) : ℝ :=
  (∑ i ∈ Finset.range s.window, s.buf.getD ((s.pos + i) % s.window) 0) / s.window

/-- the numerator `num` accumulated by `RollingSlope::slope`. -/
noncomputable def RollingSlope.num (s : RollingSlope) : ℝ :=
  ∑ i ∈ Finset.range s.window,
    ((i : ℝ) - s.xmean) * (s.buf.getD ((s.pos + i) % s.window) 0 - s.ymean)

/-- the denominator `den` accumulated by `RollingSlope::slope`. -/
noncomputable def RollingSlope.den (s : RollingSlope) : ℝ :=
  ∑ i ∈ Finset.range s.window, ((i : ℝ) - s.xmean) * ((i : ℝ) - s.xmean)

/-- `RollingSlope::slope`: NaN unless full, raw `num / den` when
`den > EPS`, and 0 otherwise.  Note this is a raw division guarded by a
comparison, not an `EPS`-padded denominator. -/
noncomputable def RollingSlope.slope (s : RollingSlope) : FVal :=
  if ¬s.full then none
  else if EPS < s.den then some (s.num / s.den) else some 0

noncomputable def RollingSlope.pushAll (s : RollingSlope) (xs : List ℝ) : RollingSlope :=
  xs.foldl RollingSlope.push s

/-! ### Feature-map writes

`unordered_map::operator[]` assignment: overwrite the entry when the key is
present, otherwise append it. -/

def setF (fs : FeatureMap) (k : String) (v : FVal) : FeatureMap :=
  if fs.any (fun p => p.1 = k) then
    fs.map (fun p => if p.1 = k then (k, v) else p)
  else fs ++ [(k, v)]

def setMany (fs : FeatureMap) (ws : List (String × FVal)) : FeatureMap :=
  ws.foldl (fun a kv => setF a kv.1 kv.2) fs

/-- Merge one calculator stage's per-bar writes (`ws`, one entry per bar,
in bar order) into the shared results array.  Mirrors the C++ pattern of a
calculator writing `results[i].features[name] = value` for each bar `i`:
`bar_id` is never touched and no element is reordered or dropped. -/
def applyWrites (results : List IndicatorResult) (ws : List FeatureMap) :
    List IndicatorResult :=
  List.zipWith (fun r w => ⟨r.bar_id, setMany r.features w⟩) results ws

/-- Generic per-bar loop driver: run `step` on indices `i, i+1, ...` for
`todo` iterations, threading calculator state and collecting each
iteration's feature writes. -/
def runCalc {σ : Type} (step : ℕ → σ → σ × List (String × FVal)) :
    ℕ → ℕ → σ → List (List (String × FVal))
  | 0, _, _ => []
  | todo + 1, i, st =>
    let out := step i st
    out.2 :: runCalc step todo (i + 1) out.1

/-! ### Returns calculator (`returns.cpp`)

Windows from `returns.h`: `short_window = 5`, `medium_window = 15`,
`long_window = 60`, `ema_fast = 12`, `ema_slow = 48`. -/

/-- close price of bar `i` as a real. -/
def closeAt (bars : List OHLCVBar) (i : ℕ) : ℚ :=
  (bars.getD i default).close

/-- the `r1` value written for bar `i` (1-bar log return, NaN at `i = 0`).
This is also what `ReturnCalculator` stores into `r1_out[i]`. -/
noncomputable def r1At (bars : List OHLCVBar) (i : ℕ) : FVal :=
  if 1 ≤ i then log_return (closeAt bars i) (closeAt bars (i - 1)) else none

/-- the side-channel `r1_out` series produced by `ReturnCalculator`. -/
noncomputable def r1Series (bars : List OHLCVBar) : List FVal :=
  (List.range bars.length).map (r1At bars)

structure RetState where
  emaF : EmaState
  emaS : EmaState
  cum : RollingSum
  slp : RollingSlope
  rv : RollingStats

noncomputable def RetState.init : RetState :=
  ⟨EmaState.init 12, EmaState.init 48, RollingSum.init 60,
    RollingSlope.init 60, RollingStats.init 60⟩

noncomputable def returnsStep (bars : List OHLCVBar) (i : ℕ) (st : RetState) :
    RetState × List (String × FVal) :=
  let c : ℝ := closeAt bars i
  let r1 := r1At bars i
  let r5 : FVal := if 5 ≤ i then log_return c (closeAt bars (i - 5)) else none
  let r15 : FVal := if 15 ≤ i then log_return c (closeAt bars (i - 15)) else none
  let r60 : FVal := if 60 ≤ i then log_return c (closeAt bars (i - 60)) else none
  let cum' := match r1 with
    | some v => st.cum.push v
    | none => st.cum
  let cumret : FVal := if cum'.full then some cum'.sum else none
  let emaF' := st.emaF.update c
  let emaS' := st.emaS.update c
  let emaDiff : FVal :=
    if 47 ≤ i ∧ 0 < closeAt bars i then
      match emaF'.value, emaS'.value with
      | some ef, some es => some (safe_divide (ef - es) c)
      | _, _ => none
    else none
  let slp' := if 0 < closeAt bars i then st.slp.push (Real.log c) else st.slp
  let slope60 : FVal := if slp'.full then slp'.slope else none
  let rv' := match r1 with
    | some v => st.rv.push v
    | none => st.rv
  let rv60 : FVal := if rv'.full then rv'.std_dev else none
  let trend : FVal :=
    match slope60, rv60 with
    | some sl, some rv => some (safe_divide |sl| rv)
    | _, _ => none
  (⟨emaF', emaS', cum', slp', rv'⟩,
    [("r1", r1), ("r5", r5), ("r15", r15), ("r60", r60),
     ("cumret_60", cumret), ("ema_diff", emaDiff), ("slope_60", slope60),
     ("trend_strength", trend)])

noncomputable def returnsWrites (bars : List OHLCVBar) : List (List (String × FVal)) :=
  runCalc (returnsStep bars) bars.length 0 RetState.init

/-! ### Volatility calculator (`volatility.cpp`)

Windows from `volatility.h`: `short_window = 15`, `long_window = 60`. -/

structure VolState where
  rvS : RollingStats
  rvL : RollingStats
  rangeZ : RollingStats
  atrSum : RollingSum
  vov : RollingStats

noncomputable def VolState.init : VolState :=
  ⟨RollingStats.init 15, RollingStats.init 60, RollingStats.init 60,
    RollingSum.init 60, RollingStats.init 60⟩

noncomputable def volatilityStep (bars : List OHLCVBar) (r1s : List FVal)
    (i : ℕ) (st : VolState) : VolState × List (String × FVal) :=
  let b := bars.getD i default
  let r1 := r1s.getD i none
  let rvS' := match r1 with
    | some v => st.rvS.push v
    | none => st.rvS
  let rvL' := match r1 with
    | some v => st.rvL.push v
    | none => st.rvL
  let rv15 : FVal := if rvS'.full then rvS'.std_dev else none
  let rv60 : FVal := if rvL'.full then rvL'.std_dev else none
  let rng : FVal :=
    if 0 < b.close then some (((b.high : ℝ) - (b.low : ℝ)) / (b.close : ℝ)) else none
  let atr' := match rng with
    | some v => st.atrSum.push v
    | none => st.atrSum
  let atr60 : FVal := if atr'.full then atr'.mean else none
  let rangeZ' := match rng with
    | some v => st.rangeZ.push v
    | none => st.rangeZ
  let rangeZ60 : FVal :=
    if rangeZ'.full then
      match rng with
      | some v => rangeZ'.zscore v
      | none => none
    else none
  let vov' := match rv15 with
    | some v => st.vov.push v
    | none => st.vov
  let vovOut : FVal := if vov'.full then vov'.std_dev else none
  (⟨rvS', rvL', rangeZ', atr', vov'⟩,
    [("rv_15", rv15), ("rv_60", rv60), ("range_1", rng), ("atr_60", atr60),
     ("range_z_60", rangeZ60), ("vol_of_vol", vovOut)])

noncomputable def volatilityWrites (bars : List OHLCVBar) (r1s : List FVal) :
    List (List (String × FVal)) :=
  runCalc (volatilityStep bars r1s) bars.length 0 VolState.init

/-! ### Volume calculator (`volume.cpp`), window 60. -/

structure VolumeState where
  volStats : RollingStats
  dvolStats : RollingStats
  volSum : RollingSum

noncomputable def VolumeState.init : VolumeState :=
  ⟨RollingStats.init 60, RollingStats.init 60, RollingSum.init 60⟩

noncomputable def volumeStep (bars : List OHLCVBar) (i : ℕ) (st : VolumeState) :
    VolumeState × List (String × FVal) :=
  let b := bars.getD i default
  let v : ℝ := (b.volume : ℝ)
  let c : ℝ := (b.close : ℝ)
  let dv := c * v
  let volSum' := st.volSum.push v
  let relvol : FVal :=
    if volSum'.full then
      match volSum'.mean with
      | some m => some (safe_divide v m)
      | none => none
    else none
  let volStats' := st.volStats.push v
  let volZ : FVal := if volStats'.full then volStats'.zscore v else none
  let dvolStats' := st.dvolStats.push dv
  let dvolZ : FVal := if dvolStats'.full then dvolStats'.zscore dv else none
  (⟨volStats', dvolStats', volSum'⟩,
    [("vol1", some v), ("dvol1", some dv), ("relvol_60", relvol),
     ("vol_z_60", volZ), ("dvol_z_60", dvolZ)])

noncomputable def volumeWrites (bars : List OHLCVBar) : List (List (String × FVal)) :=
  runCalc (volumeStep bars) bars.length 0 VolumeState.init

/-! ### Intrabar calculator (`intrabar.cpp`): pure per-bar ratios. -/

/-- `range = high - low + EPS`. -/
noncomputable def intrabarRange (b : OHLCVBar) : ℝ :=
  (b.high : ℝ) - (b.low : ℝ) + EPS

/-- `clv = (close - low) / range`. -/
noncomputable def intrabarClv (b : OHLCVBar) : ℝ :=
  ((b.close : ℝ) - (b.low : ℝ)) / intrabarRange b

/-- `body_ratio = |close - open| / range`. -/
noncomputable def intrabarBody (b : OHLCVBar) : ℝ :=
  |(b.close : ℝ) - (b.open' : ℝ)| / intrabarRange b

/-- `upper_wick = (high - max(open, close)) / range`. -/
noncomputable def intrabarUpper (b : OHLCVBar) : ℝ :=
  ((b.high : ℝ) - max (b.open' : ℝ) (b.close : ℝ)) / intrabarRange b

/-- `lower_wick = (min(open, close) - low) / range`. -/
noncomputable def intrabarLower (b : OHLCVBar) : ℝ :=
  (min (b.open' : ℝ) (b.close : ℝ) - (b.low : ℝ)) / intrabarRange b

noncomputable def intrabarWrites (bars : List OHLCVBar) : List (List (String × FVal)) :=
  bars.map (fun b =>
    [("clv", some (intrabarClv b)), ("body_ratio", some (intrabarBody b)),
     ("upper_wick", some (intrabarUpper b)), ("lower_wick", some (intrabarLower b))])

/-! ### Anchor calculator (`anchor.cpp`)

Windows from `anchor.h`: `vwap_window = 60`, `ema_period = 48`,
`breakout_window = 20`. -/

structure AnchorState where
  tpVol : RollingSum
  volS : RollingSum
  ema48 : EmaState
  highMax : RollingMax

noncomputable def AnchorState.init : AnchorState :=
  ⟨RollingSum.init 60, RollingSum.init 60, EmaState.init 48, RollingMax.init 20⟩

noncomputable def anchorStep (bars : List OHLCVBar) (i : ℕ) (st : AnchorState) :
    AnchorState × List (String × FVal) :=
  let b := bars.getD i default
  let h : ℝ := (b.high : ℝ)
  let l : ℝ := (b.low : ℝ)
  let c : ℝ := (b.close : ℝ)
  let v : ℝ := (b.volume : ℝ)
  let typical := (h + l + c) / 3
  let tpVol' := st.tpVol.push (typical * v)
  let volS' := st.volS.push v
  let vwap : FVal :=
    if tpVol'.full ∧ 0 < volS'.sum then some (tpVol'.sum / volS'.sum) else none
  let distVwap : FVal :=
    match vwap with
    | some w => if 0 < b.close then some (safe_divide (c - w) c) else none
    | none => none
  let ema' := st.ema48.update c
  let distEma : FVal :=
    if 47 ≤ i ∧ 0 < b.close then
      match ema'.value with
      | some e => some (safe_divide (c - e) c)
      | none => none
    else none
  let highMax' := st.highMax.push h
  let brk : FVal :=
    if highMax'.full ∧ 0 < b.close then
      match highMax'.max_val with
      | some h20 => some (safe_divide (c - h20) c)
      | none => none
    else none
  let pullback : FVal :=
    if highMax'.full ∧ 0 < b.close then
      match highMax'.max_val with
      | some h20 => if 0 < h20 then some (safe_divide (h20 - c) h20) else none
      | none => none
    else none
  (⟨tpVol', volS', ema', highMax'⟩,
    [("vwap_60", vwap), ("dist_vwap_60", distVwap), ("dist_ema_48", distEma),
     ("breakout_20", brk), ("pullback_depth", pullback)])

noncomputable def anchorWrites (bars : List OHLCVBar) : List (List (String × FVal)) :=
  runCalc (anchorStep bars) bars.length 0 AnchorState.init

/-! ### Time-of-day calculator (`time_of_day.cpp`)

Constants from `time_of_day.h`: open 9:30, 390 trading minutes, open window
30, close window 60, midday 120-240.  `gmtime_r` on a (non-negative) UTC
epoch yields `tm_hour * 60 + tm_min = (ts mod 86400) div 60`. -/

noncomputable def todStep (bars : List OHLCVBar) (i : ℕ) :
    List (String × FVal) :=
  let b := bars.getD i default
  let minutesOfDay : ℤ := (b.timestamp % 86400) / 60
  let mfo0 : ℤ := minutesOfDay - (9 * 60 + 30)
  let mfo : ℤ := if mfo0 < 0 then 0 else if 390 < mfo0 then 390 else mfo0
  let frac : ℝ := (mfo : ℝ) / 390
  [("tod_sin", some (Real.sin (2 * Real.pi * frac))),
   ("tod_cos", some (Real.cos (2 * Real.pi * frac))),
   ("is_open_window", some (if mfo < 30 then 1 else 0)),
   ("is_close_window", some (if 390 - 60 < mfo then 1 else 0)),
   ("is_midday", some (if 120 ≤ mfo ∧ mfo ≤ 240 then 1 else 0))]

noncomputable def todWrites (bars : List OHLCVBar) : List (List (String × FVal)) :=
  (List.range bars.length).map (todStep bars)

/-! ### External indicator bank (`talib_wrapper.cpp`)

The repository is built without `HAS_TALIB` (the TA-Lib binding is an
optional external library); the embedded `compute` is the fallback branch,
which writes NaN into a fixed list of 24 feature names for every bar.
`talibRealNames` enumerates, from the `#ifdef HAS_TALIB` source text, every
feature name the real binding writes. -/

def talibFallbackNames : List String :=
  ["rsi_14", "macd", "macd_signal", "macd_hist",
   "stoch_k", "stoch_d", "adx_14", "cci_20",
   "willr_14", "mfi_14", "sma_20", "sma_50",
   "sma_200", "ema_20", "ema_50", "ema_200",
   "bb_upper", "bb_middle", "bb_lower", "bb_width",
   "bb_pct", "atr_14", "obv", "psar"]

def talibRealNames : List String :=
  ["rsi_14", "rsi_2", "macd", "macd_signal", "macd_hist", "stoch_k", "stoch_d",
   "adx_14", "cci_20", "willr_14", "mfi_14", "cmo_14", "roc_10", "mom_10",
   "apo", "ppo", "trix_15", "plus_di_14", "minus_di_14", "aroon_down_25",
   "aroon_up_25", "sma_20", "sma_50", "sma_200", "ema_20", "ema_50", "ema_200",
   "psar", "kama_30", "ht_trendline", "linearreg_slope_20", "ichi_tenkan",
   "ichi_kijun", "ichi_senkou_a", "ichi_senkou_b", "ichi_chikou", "bb_upper",
   "bb_middle", "bb_lower", "bb_width", "bb_pct", "atr_14", "stddev_20",
   "obv", "adosc", "vwap", "pivot_pp", "pivot_r1", "pivot_r2", "pivot_s1",
   "pivot_s2", "donchian_high_20", "donchian_low_20", "donchian_mid_20",
   "donchian_high_10", "donchian_low_10", "bar_range", "atr_sma_50",
   "obv_sma_20", "obv_high_20", "obv_low_20", "typical_price_sma_20",
   "volume_sma_20"]

/-- `TALibCalculator::compute`, fallback (no-TA-Lib) branch: set every name
in `talibFallbackNames` to NaN, for every result row. -/
def talibCompute (results : List IndicatorResult) : List IndicatorResult :=
  results.map (fun r =>
    ⟨r.bar_id, setMany r.features (talibFallbackNames.map (fun nm => (nm, (none : FVal))))⟩)

/-! ### Pipeline (`pipeline.cpp`) -/

/-- `Pipeline::compute`: empty input short-circuits to empty output before
any stage runs; otherwise results are seeded with the bar ids and the seven
stages are applied in the fixed source order. -/
noncomputable def pipelineCompute (bars : List OHLCVBar) : List IndicatorResult :=
  if bars = [] then []
  else
    let res0 := bars.map (fun b => IndicatorResult.mk b.id [])
    let res1 := applyWrites res0 (returnsWrites bars)
    let res2 := applyWrites res1 (volatilityWrites bars (r1Series bars))
    let res3 := applyWrites res2 (volumeWrites bars)
    let res4 := applyWrites res3 (intrabarWrites bars)
    let res5 := applyWrites res4 (anchorWrites bars)
    let res6 := applyWrites res5 (todWrites bars)
    talibCompute res6

/-! ### Compute coordinator (`service.cpp`, `Service::compute_for_ticker`) -/

/-- `ComputeStats` from `service.h`, default-initialized to zeros. -/
structure ComputeStats where
  bars_computed : ℤ
  bars_skipped : ℤ
deriving DecidableEq

/-- `WRITE_BATCH_SIZE = 5000` batching loop of `compute_for_ticker`:
split `to_write` into consecutive batches of at most 5000 rows. -/
def chunks5000 : List IndicatorResult → List (List IndicatorResult)
  | [] => []
  | x :: xs =>
    (x :: xs).take 5000 :: chunks5000 ((x :: xs).drop 5000)
termination_by l => l.length
decreasing_by simp [List.length_drop]; omega

/-- `Service::compute_for_ticker`.  External collaborators appear as
parameters: `bars` is what `read_ohlcv_bars` returns, `existing` what
`get_existing_feature_bar_ids` returns, and `upsert` reports the affected
row count of one `batch_upsert_features` call.  The returned list is the
exact sequence of batches handed to the store, so that store-call claims
are statable; the C++ returns only the stats. -/
noncomputable def computeForTicker (bars : List OHLCVBar) (existing : Finset ℤ)
    (upsert : List IndicatorResult → ℤ) :
    ComputeStats × List (List IndicatorResult) :=
  if bars = [] then (⟨0, 0⟩, [])
  else
    let allIds : Finset ℤ := (bars.map OHLCVBar.id).toFinset
    let missing : Finset ℤ := allIds \ existing
    let skipped : ℤ := existing.card
    if missing = ∅ then (⟨0, skipped⟩, [])
    else
      let results := pipelineCompute bars
      let toWrite := results.filter (fun r => r.bar_id ∈ missing)
      let batches := chunks5000 toWrite
      (⟨(batches.map upsert).sum, skipped⟩, batches)

/-! ### Event-driven listener (`Service::handle_compute_request`)

JSON decoding of the inbound message is an external collaborator; the
request is modelled already parsed.  Publishing is modelled by returning
the list of (channel, event) pairs; coordinator invocations are logged as
(ticker id, timeframe) pairs. -/

structure Ticker where
  id : ℤ
  symbol : String

structure ComputeRequest where
  symbol : String
  timeframe : String
  correlation_id : String

/-- outbound events built by `handle_compute_request`. -/
inductive OutEvent
  | failed (symbol error source correlation_id : String)
  | complete (symbol timeframe : String) (bars_computed bars_skipped : ℤ)
      (source correlation_id : String)

/-- `RedisBus::channel_for`: configured channel namespace + ":" + event
type. -/
def channelName (ns evt : String) : String := ns ++ ":" ++ evt

noncomputable def handleComputeRequest
    (readBars : ℤ → String → List OHLCVBar)
    (getExisting : ℤ → String → Finset ℤ)
    (upsert : List IndicatorResult → ℤ)
    (lookup : String → Ticker) (ns : String) (req : ComputeRequest) :
    List (String × OutEvent) × List (ℤ × String) :=
  let ticker := lookup req.symbol
  if ticker.id = 0 then
    ([(channelName ns "indicator_compute_failed",
       OutEvent.failed req.symbol "Ticker not found" "indicator-engine"
         req.correlation_id)], [])
  else
    let stats := (computeForTicker (readBars ticker.id req.timeframe)
      (getExisting ticker.id req.timeframe) upsert).1
    ([(channelName ns "indicator_compute_complete",
       OutEvent.complete req.symbol req.timeframe stats.bars_computed
         stats.bars_skipped "indicator-engine" req.correlation_id)],
     [(ticker.id, req.timeframe)])

/-! ### Auxiliary definitions used by the statements below -/

/-- the last `w` elements of a pushed sequence (all of it when shorter). -/
def lastW (w : ℕ) (xs : List ℝ) : List ℝ := xs.drop (xs.length - w)

/-- elementwise squares. -/
def sqList (xs : List ℝ) : List ℝ := xs.map (fun x => x * x)

/-- the integer id list `a, a+1, ..., a+len-1`. -/
def intRange (a len : ℕ) : List ℤ := (List.range' a len).map (fun (k : ℕ) => (k : ℤ))

/-- Modelled from the spec: the final ratio of `RollingSlope::slope` as it
would read if, per the spec sentence "every ratio in this system uses
`numerator/(denominator+ε)`, never a raw divide", the slope used the
EPS-padded denominator.  The source instead divides raw, guarded by
`den > EPS`. -/
noncomputable def slopeSpecGuarded (s : RollingSlope) : FVal :=
  if ¬s.full then none else some (safe_divide s.num s.den)

/-- concrete full slope state over values 0, 1 (window 2). -/
noncomputable def slopeCexState : RollingSlope := ⟨[0, 1], 2, 0, 2⟩

/-- concrete `RollingStats` state with a negative computed variance
(`sq_sum/count - mean² = 1/2 - 25 < 0`); such a state is what the source's
`std_dev` negative branch reads. -/
noncomputable def statsNegVarState : RollingStats := ⟨[0, 0], 2, 0, 2, 10, 1⟩

/-- concrete well-formed full `RollingStats` state over values 1, 2. -/
noncomputable def statsWitState : RollingStats := ⟨[1, 2], 2, 0, 2, 3, 5⟩

/-- concrete `RollingStats` state with only one element pushed (count 1,
window 2): not yet full, and below the `count ≥ 2` variance guard. -/
noncomputable def statsSmallState : RollingStats := ⟨[7, 0], 2, 1, 1, 7, 49⟩

/-- degenerate zero-range bar: `open = high = low = close = 100`. -/
def zeroRangeBar : OHLCVBar := ⟨1, 1, 100, 100, 100, 100, 1000, 0⟩

/-- ordinary bar with unit range. -/
def unitRangeBar : OHLCVBar := ⟨1, 1, 1, 2, 1, 2, 10, 0⟩

/-- concrete 100-bar history with ids 1..100 (constant prices). -/
def bars100 : List OHLCVBar :=
  (List.range' 1 100).map (fun (i : ℕ) => ⟨(i : ℤ), 1, 1, 2, 1, 2, 10, (i : ℤ)⟩)

/-- two concrete bars for the pipeline witness. -/
def bars2 : List OHLCVBar := [⟨7, 1, 1, 2, 1, 2, 10, 0⟩, ⟨9, 1, 1, 2, 1, 2, 10, 60⟩]

/-- concrete 12000-row result list for the batching witness. -/
def rows12000 : List IndicatorResult :=
  (List.range 12000).map (fun (i : ℕ) => ⟨(i : ℤ), []⟩)

/-- the variance expression `sq_sum/count - mean²` evaluated by
`RollingStats::variance` once `count ≥ 2`. -/
noncomputable def computedVar (s : RollingStats) : ℝ :=
  s.sq_sum / s.count - (s.sum / s.count) * (s.sum / s.count)

/-- Per-state formulas of `RollingStats` (C7), for every state: the
`count < 2` NaN guard of variance (and hence of std), the variance
formula at `count ≥ 2`, the std-dev branch split on the sign of the
computed variance, the z-score NaN whenever the window is not full, and
the z-score formula (or NaN, when std is NaN) once the window is full. -/
noncomputable def statsFormulaProp (s : RollingStats) (x : ℝ) : Prop :=
  (s.count < 2 → s.variance = none ∧ s.std_dev = none) ∧
  (2 ≤ s.count → s.variance = some (computedVar s)) ∧
  (2 ≤ s.count → 0 ≤ computedVar s →
    s.std_dev = some (Real.sqrt (computedVar s))) ∧
  (2 ≤ s.count → computedVar s < 0 → s.std_dev = none) ∧
  (s.count < s.window → s.zscore x = none) ∧
  (s.window ≤ s.count → s.count < 2 → s.zscore x = none) ∧
  (s.window ≤ s.count → 2 ≤ s.count → 0 ≤ computedVar s →
    s.zscore x =
      some ((x - s.sum / s.count) / (Real.sqrt (computedVar s) + EPS))) ∧
  (s.window ≤ s.count → 2 ≤ s.count → computedVar s < 0 → s.zscore x = none)

/-- The closed-form contract of the windowed primitives with window `w`:
after fewer than `w` pushes (`ys`) the full()-gate is closed on both
`RollingStats` and `RollingSum`; after at least `w` pushes (`xs`) both are
full and sum, mean, and — for `w ≥ 2` — variance, std-dev and z-score
equal the closed-form statistics over exactly the last `w` pushed values. -/
noncomputable def rollingClosedFormProp (w : ℕ) (xs ys : List ℝ) (x : ℝ) : Prop :=
  (¬((RollingStats.init w).pushAll ys).full ∧
    ¬((RollingSum.init w).pushAll ys).full) ∧
  ((RollingStats.init w).pushAll xs).full ∧
  ((RollingSum.init w).pushAll xs).full ∧
  ((RollingSum.init w).pushAll xs).sum = (lastW w xs).sum ∧
  ((RollingSum.init w).pushAll xs).mean = some ((lastW w xs).sum / w) ∧
  ((RollingStats.init w).pushAll xs).mean = some ((lastW w xs).sum / w) ∧
  (2 ≤ w →
    ((RollingStats.init w).pushAll xs).variance =
      some ((sqList (lastW w xs)).sum / w -
        ((lastW w xs).sum / w) * ((lastW w xs).sum / w)) ∧
    ((RollingStats.init w).pushAll xs).std_dev =
      some (Real.sqrt ((sqList (lastW w xs)).sum / w -
        ((lastW w xs).sum / w) * ((lastW w xs).sum / w))) ∧
    ((RollingStats.init w).pushAll xs).zscore x =
      some ((x - (lastW w xs).sum / w) /
        (Real.sqrt ((sqList (lastW w xs)).sum / w -
          ((lastW w xs).sum / w) * ((lastW w xs).sum / w)) + EPS)))

/-! ## Theorems -/

/-! ### Generic list helpers -/

theorem getD_map_of_lt {α β : Type} (l : List α) (f : α → β) (i : ℕ) (d : β)
    (d' : α) (h : i < l.length) : (l.map f).getD i d = f (l.getD i d') := by
  simp [List.getD_eq_getElem?_getD, List.getElem?_map, List.getElem?_eq_getElem h]

theorem map_filter_comm {α β : Type} (l : List α) (f : α → β) (p : β → Bool) :
    (l.filter fun a => p (f a)).map f = (l.map f).filter p := by
  induction l with
  | nil => rfl
  | cons x xs ih => by_cases h : p (f x) <;> simp [List.filter_cons, h, ih]

/-! ### Batching loop (`chunks5000`) -/

theorem chunks5000_nil : chunks5000 [] = [] := by
  simp [chunks5000]

theorem chunks5000_ne_nil (l : List IndicatorResult) (hl : l ≠ []) :
    chunks5000 l = l.take 5000 :: chunks5000 (l.drop 5000) := by
  cases l with
  | nil => exact absurd rfl hl
  | cons a as => rw [chunks5000]

/-- C10: on an empty bar history the coordinator returns computed = 0 and
skipped = 0 immediately: the result is `(⟨0, 0⟩, [])` for every content of
the feature store (`existing`) and every store behaviour (`upsert`), i.e.
the existing-feature set is not consulted, the pipeline is not run, and no
upsert batch is issued — even when the store holds persisted features for
the pair. -/
theorem emptyBars_shortCircuit (existing : Finset ℤ)
    (upsert : List IndicatorResult → ℤ) :
    computeForTicker [] existing upsert = (⟨0, 0⟩, []) := by
  simp [computeForTicker]

/-- C9: when the symbol resolves to the not-found sentinel (ticker id 0),
the listener publishes exactly one `indicator_compute_failed` event naming
the missing symbol on the failure channel and returns: the coordinator is
never invoked and no completion event is published.  The embedded handler
is a total function, so this path never raises. -/
theorem notFound_publishes_failure
    (readBars : ℤ → String → List OHLCVBar)
    (getExisting : ℤ → String → Finset ℤ)
    (upsert : List IndicatorResult → ℤ)
    (lookup : String → Ticker) (ns : String) (req : ComputeRequest)
    (h : (lookup req.symbol).id = 0) :
    handleComputeRequest readBars getExisting upsert lookup ns req =
      ([(channelName ns "indicator_compute_failed",
         OutEvent.failed req.symbol "Ticker not found" "indicator-engine"
           req.correlation_id)], []) := by
  simp [handleComputeRequest, h]

/-- C9 witness: a concrete lookup returning the id-0 sentinel takes the
failure path. -/
theorem notFound_publishes_failure_witness :
    ((fun s => (⟨0, s⟩ : Ticker)) "XYZ").id = 0 ∧
    handleComputeRequest (fun _ _ => []) (fun _ _ => ∅) (fun _ => 0)
        (fun s => (⟨0, s⟩ : Ticker)) "algomatic" ⟨"XYZ", "5Min", "c1"⟩ =
      ([(channelName "algomatic" "indicator_compute_failed",
         OutEvent.failed "XYZ" "Ticker not found" "indicator-engine" "c1")], []) :=
  ⟨rfl, notFound_publishes_failure _ _ _ _ _ _ rfl⟩

/-- C4: with 12,000 rows to persist and the 5,000-row batch size, the
coordinator's batching loop issues exactly 3 store calls with batches of
sizes 5000, 5000, 2000, which cover the rows in order with each row
appearing exactly once, and the computed stat (the sum of the reported
affected-row counts over the issued batches) equals the sum of the three
reports. -/
theorem batching_12000 (tw : List IndicatorResult)
    (upsert : List IndicatorResult → ℤ) (h : tw.length = 12000) :
    chunks5000 tw = [tw.take 5000, (tw.drop 5000).take 5000, tw.drop 10000] ∧
    (chunks5000 tw).map List.length = [5000, 5000, 2000] ∧
    (chunks5000 tw).flatten = tw ∧
    ((chunks5000 tw).map upsert).sum =
      upsert (tw.take 5000) + upsert ((tw.drop 5000).take 5000) +
        upsert (tw.drop 10000) := by
  have h1 : chunks5000 tw = tw.take 5000 :: chunks5000 (tw.drop 5000) :=
    chunks5000_ne_nil tw (by intro hn; rw [hn] at h; simp at h)
  have h2 : chunks5000 (tw.drop 5000) =
      (tw.drop 5000).take 5000 :: chunks5000 ((tw.drop 5000).drop 5000) :=
    chunks5000_ne_nil _ (by
      intro hn
      have := congrArg List.length hn
      simp [h] at this)
  have hdd : (tw.drop 5000).drop 5000 = tw.drop 10000 := by
    rw [List.drop_drop]
  have h3 : chunks5000 (tw.drop 10000) =
      (tw.drop 10000).take 5000 :: chunks5000 ((tw.drop 10000).drop 5000) :=
    chunks5000_ne_nil _ (by
      intro hn
      have := congrArg List.length hn
      simp [h] at this)
  have htk : (tw.drop 10000).take 5000 = tw.drop 10000 :=
    List.take_of_length_le (by simp [h])
  have hlast : (tw.drop 10000).drop 5000 = [] :=
    List.drop_eq_nil_of_le (by simp [h])
  have hchunks : chunks5000 tw =
      [tw.take 5000, (tw.drop 5000).take 5000, tw.drop 10000] := by
    rw [h1, h2, hdd, h3, htk, hlast, chunks5000_nil]
  refine ⟨hchunks, ?_, ?_, ?_⟩
  · rw [hchunks]
    simp [h]
  · rw [hchunks]
    simp only [List.flatten]
    rw [List.append_nil, ← hdd, List.take_append_drop, List.take_append_drop]
  · rw [hchunks]
    simp [add_assoc]

/-- C4 witness: a concrete list of 12,000 rows with a store reporting the
batch length as its affected-row count. -/
theorem batching_12000_witness :
    rows12000.length = 12000 ∧
    (chunks5000 rows12000 =
      [rows12000.take 5000, (rows12000.drop 5000).take 5000,
        rows12000.drop 10000] ∧
    (chunks5000 rows12000).map List.length = [5000, 5000, 2000] ∧
    (chunks5000 rows12000).flatten = rows12000 ∧
    ((chunks5000 rows12000).map (fun b => (b.length : ℤ))).sum =
      ((rows12000.take 5000).length : ℤ) +
        (((rows12000.drop 5000).take 5000).length : ℤ) +
        ((rows12000.drop 10000).length : ℤ)) :=
  ⟨by simp [rows12000], batching_12000 rows12000 (fun b => (b.length : ℤ))
    (by simp [rows12000])⟩

/-! ### getD helpers -/

theorem getD_drop (l : List ℝ) (m k : ℕ) (d : ℝ) :
    (l.drop m).getD k d = l.getD (m + k) d := by
  simp [List.getD_eq_getElem?_getD, List.getElem?_drop]

theorem getD_of_lt (l : List ℝ) (i : ℕ) (d : ℝ) (h : i < l.length) :
    l.getD i d = l[i] := by
  simp [List.getD_eq_getElem?_getD, List.getElem?_eq_getElem h]

theorem getD_set_self (l : List ℝ) (i : ℕ) (x d : ℝ) (h : i < l.length) :
    (l.set i x).getD i d = x := by
  simp [List.getD_eq_getElem?_getD, List.getElem?_set_eq_of_lt x h]

theorem getD_set_ne (l : List ℝ) (i j : ℕ) (x d : ℝ) (h : i ≠ j) :
    (l.set i x).getD j d = l.getD j d := by
  simp [List.getD_eq_getElem?_getD, List.getElem?_set_ne h]

theorem getD_append_left (l l₂ : List ℝ) (k : ℕ) (d : ℝ) (h : k < l.length) :
    (l ++ l₂).getD k d = l.getD k d := by
  simp [List.getD_eq_getElem?_getD, List.getElem?_append_left h]

theorem getD_concat_length (l : List ℝ) (x d : ℝ) :
    (l ++ [x]).getD l.length d = x := by
  simp [List.getD_eq_getElem?_getD, List.getElem?_concat_length]

/-! ### mod arithmetic helpers -/

theorem mod_succ_mod (n w : ℕ) : (n % w + 1) % w = (n + 1) % w :=
  (Nat.mod_modEq n w).add_right 1

theorem sub_self_mod (n w : ℕ) (h : w ≤ n) : (n - w) % w = n % w := by
  conv_rhs => rw [← Nat.sub_add_cancel h]
  rw [Nat.add_mod_right]

theorem mod_shift_ne (n w k : ℕ) (hw : w ≤ n) (hk : k + 1 < w) :
    (n - w + (k + 1)) % w ≠ n % w := by
  intro h
  rw [← sub_self_mod n w hw] at h
  have hmod : (n - w) ≡ (n - w) + (k + 1) [MOD w] := h.symm
  have hdvd : w ∣ n - w + (k + 1) - (n - w) :=
    (Nat.modEq_iff_dvd' (Nat.le_add_right _ _)).1 hmod
  rw [Nat.add_sub_cancel_left] at hdvd
  have := Nat.le_of_dvd (Nat.succ_pos k) hdvd
  omega

theorem length_lastW (w : ℕ) (xs : List ℝ) :
    (lastW w xs).length = min xs.length w := by
  simp [lastW]
  omega

/-! ### The circular-buffer invariant of `RollingStats::push` -/

theorem rollingStats_inv (w : ℕ) (hw : 0 < w) (xs : List ℝ) :
    ((RollingStats.init w).pushAll xs).window = w ∧
    ((RollingStats.init w).pushAll xs).buf.length = w ∧
    ((RollingStats.init w).pushAll xs).pos = xs.length % w ∧
    ((RollingStats.init w).pushAll xs).count = min xs.length w ∧
    ((RollingStats.init w).pushAll xs).sum = (lastW w xs).sum ∧
    ((RollingStats.init w).pushAll xs).sq_sum = (sqList (lastW w xs)).sum ∧
    (∀ k, k < min xs.length w →
      ((RollingStats.init w).pushAll xs).buf.getD
        ((xs.length - min xs.length w + k) % w) 0 = (lastW w xs).getD k 0) := by
  induction xs using List.reverseRecOn with
  | nil =>
    refine ⟨rfl, by simp [RollingStats.pushAll, RollingStats.init], ?_, ?_, ?_, ?_, ?_⟩ <;>
      simp [RollingStats.pushAll, RollingStats.init, lastW, sqList]
  | append_singleton xs x ih =>
    obtain ⟨ihw, ihbl, ihpos, ihcount, ihsum, ihsq, ihbuf⟩ := ih
    have hstep : (RollingStats.init w).pushAll (xs ++ [x]) =
        ((RollingStats.init w).pushAll xs).push x := by
      simp [RollingStats.pushAll, List.foldl_append]
    set s := (RollingStats.init w).pushAll xs with hs
    set n := xs.length with hn
    have hlen : (xs ++ [x]).length = n + 1 := by simp [hn]
    by_cases hfull : w ≤ n
    · -- buffer already full: the element at pos (the oldest) is evicted
      have hmin : min n w = w := by omega
      have hmin' : min (n + 1) w = w := by omega
      have hcond : s.window ≤ s.count := by rw [ihw, ihcount, hmin]
      have hpush : s.push x =
          ⟨s.buf.set s.pos x, s.window, (s.pos + 1) % s.window, s.count,
            s.sum - s.buf.getD s.pos 0 + x,
            s.sq_sum - s.buf.getD s.pos 0 * s.buf.getD s.pos 0 + x * x⟩ := by
        rw [RollingStats.push, if_pos hcond]
      -- the evicted value is the head of the previous window
      have hposn : s.pos = n % w := ihpos
      have hold : s.buf.getD s.pos 0 = (lastW w xs).getD 0 0 := by
        have h0 := ihbuf 0 (by omega)
        rw [hmin] at h0
        rw [hposn, ← sub_self_mod n w hfull]
        simpa using h0
      -- decomposition of the old window
      have hL1 : (lastW w xs).drop 1 = xs.drop (n - w + 1) := by
        rw [lastW, List.drop_drop]
      have hcons : lastW w xs = xs.getD (n - w) 0 :: (lastW w xs).drop 1 := by
        rw [hL1, lastW, ← hn]
        rw [getD_of_lt xs (n - w) 0 (by omega)]
        exact List.drop_eq_getElem_cons (by omega)
      -- the new window drops the head and appends x
      have hL' : lastW w (xs ++ [x]) = (lastW w xs).drop 1 ++ [x] := by
        rw [lastW, hlen, hL1]
        have h1 : n + 1 - w = n - w + 1 := by omega
        rw [h1, List.drop_append_of_le_length (by omega)]
      have hheadD : (lastW w xs).getD 0 0 = xs.getD (n - w) 0 := by
        rw [hcons]; rfl
      have hLlen : (lastW w xs).length = w := by rw [length_lastW, ← hn, hmin]
      rw [hstep, hpush]
      refine ⟨ihw, ?_, ?_, ?_, ?_, ?_, ?_⟩
      · simpa using ihbl
      · show (s.pos + 1) % s.window = (xs ++ [x]).length % w
        rw [ihw, hposn, hlen, mod_succ_mod]
      · show s.count = min (xs ++ [x]).length w
        rw [ihcount, hlen, hmin, hmin']
      · show s.sum - s.buf.getD s.pos 0 + x = (lastW w (xs ++ [x])).sum
        rw [ihsum, hold, hL']
        rw [hcons]
        simp [List.sum_append]
      · show s.sq_sum - s.buf.getD s.pos 0 * s.buf.getD s.pos 0 + x * x =
          (sqList (lastW w (xs ++ [x]))).sum
        rw [ihsq, hold, hL']
        rw [hcons]
        simp [sqList, List.sum_append]
      · intro k hk
        rw [hlen, hmin'] at hk ⊢
        show (s.buf.set s.pos x).getD ((n + 1 - w + k) % w) 0 =
          (lastW w (xs ++ [x])).getD k 0
        rcases Nat.lt_or_ge k (w - 1) with hk1 | hk1
        · -- untouched cell: still holds the (k+1)-st element of the old window
          have hidx : n + 1 - w + k = n - w + (k + 1) := by omega
          have hne : s.pos ≠ (n + 1 - w + k) % w := by
            rw [hidx, hposn]
            exact fun hh => mod_shift_ne n w k hfull (by omega) hh.symm
          rw [getD_set_ne _ _ _ _ _ hne]
          have hk2 := ihbuf (k + 1) (by omega)
          rw [hmin] at hk2
          rw [hidx, hk2, hL', getD_append_left _ _ _ _ (by
            rw [List.length_drop, hLlen]; omega)]
          rw [getD_drop, hcons, Nat.add_comm 1 k]
        · -- the freshly written cell is the last element of the new window
          have hkeq : k = w - 1 := by omega
          have hidx : (n + 1 - w + k) % w = s.pos := by
            rw [hposn, hkeq]
            congr 1
            omega
          rw [hidx, getD_set_self _ _ _ _ (by rw [ihbl, hposn]; exact Nat.mod_lt n hw)]
          rw [hL']
          have : k = ((lastW w xs).drop 1).length := by
            rw [List.length_drop, hLlen, hkeq]
          rw [this, getD_concat_length]
    · -- buffer not yet full: the new element is appended
      have hminn : min n w = n := by omega
      have hminn' : min (n + 1) w = n + 1 := by omega
      have hcond : ¬s.window ≤ s.count := by rw [ihw, ihcount, hminn]; omega
      have hpush : s.push x =
          ⟨s.buf.set s.pos x, s.window, (s.pos + 1) % s.window, s.count + 1,
            s.sum + x, s.sq_sum + x * x⟩ := by
        rw [RollingStats.push, if_neg hcond]
      have hLxs : lastW w xs = xs := by
        rw [lastW, ← hn]
        have : n - w = 0 := by omega
        rw [this, List.drop_zero]
      have hL' : lastW w (xs ++ [x]) = xs ++ [x] := by
        rw [lastW, hlen]
        have : n + 1 - w = 0 := by omega
        rw [this, List.drop_zero]
      have hposn : s.pos = n := by rw [ihpos, Nat.mod_eq_of_lt (by omega)]
      rw [hstep, hpush]
      refine ⟨ihw, ?_, ?_, ?_, ?_, ?_, ?_⟩
      · simpa using ihbl
      · show (s.pos + 1) % s.window = (xs ++ [x]).length % w
        rw [ihw, ihpos, hlen, mod_succ_mod]
      · show s.count + 1 = min (xs ++ [x]).length w
        rw [ihcount, hlen, hminn, hminn']
      · show s.sum + x = (lastW w (xs ++ [x])).sum
        rw [ihsum, hLxs, hL']
        simp [List.sum_append]
      · show s.sq_sum + x * x = (sqList (lastW w (xs ++ [x]))).sum
        rw [ihsq, hLxs, hL']
        simp [sqList, List.sum_append]
      · intro k hk
        rw [hlen, hminn'] at hk ⊢
        show (s.buf.set s.pos x).getD ((n + 1 - (n + 1) + k) % w) 0 =
          (lastW w (xs ++ [x])).getD k 0
        have hidx : (n + 1 - (n + 1) + k) % w = k := by
          rw [Nat.sub_self]
          simpa using Nat.mod_eq_of_lt (by omega : k < w)
        rw [hidx, hL']
        rcases Nat.lt_or_ge k n with hkn | hkn
        · have hne : s.pos ≠ k := by rw [hposn]; omega
          rw [getD_set_ne _ _ _ _ _ hne]
          have hk2 := ihbuf k (by omega)
          rw [hminn, Nat.sub_self] at hk2
          simp only [Nat.zero_add] at hk2
          rw [Nat.mod_eq_of_lt (by omega : k < w)] at hk2
          rw [hk2, hLxs, getD_append_left _ _ _ _ (by rw [← hn]; omega)]
        · have hkeq : k = n := by omega
          have hself : s.pos = k := by rw [hposn, hkeq]
          rw [← hself, getD_set_self _ _ _ _ (by rw [ihbl]; omega)]
          rw [hself, hkeq, hn, getD_concat_length]

/-! ### `RollingSum` simulates the sum-part of `RollingStats` -/

theorem toSum_push (s : RollingStats) (x : ℝ) :
    (s.push x).toSum = s.toSum.push x := by
  by_cases h : s.window ≤ s.count <;>
    simp [RollingStats.push, RollingSum.push, RollingStats.toSum, h]

theorem toSum_pushAll (s : RollingStats) (xs : List ℝ) :
    (s.pushAll xs).toSum = s.toSum.pushAll xs := by
  induction xs generalizing s with
  | nil => rfl
  | cons y ys ih =>
    rw [RollingStats.pushAll, RollingSum.pushAll, List.foldl_cons, List.foldl_cons,
      ← RollingStats.pushAll, ← RollingSum.pushAll, ih, toSum_push]

theorem toSum_init (w : ℕ) : (RollingStats.init w).toSum = RollingSum.init w := rfl

/-! ### Cauchy-Schwarz: the closed-form variance is nonnegative -/

theorem list_sq_sum_le (l : List ℝ) :
    l.sum * l.sum ≤ l.length * (sqList l).sum := by
  induction l with
  | nil => simp
  | cons y l ih =>
    simp only [List.sum_cons, sqList, List.map_cons, List.length_cons] at *
    rcases Nat.eq_zero_or_pos l.length with h0 | hpos
    · have hl : l = [] := List.length_eq_zero.mp h0
      subst hl
      simp
    · have hn : (1 : ℝ) ≤ l.length := by exact_mod_cast hpos
      push_cast
      nlinarith [ih, sq_nonneg ((l.length : ℝ) * y - l.sum),
        mul_nonneg (sub_nonneg.2 hn) (sub_nonneg.2 ih)]

theorem closedVar_nonneg (L : List ℝ) (h : 0 < L.length) :
    0 ≤ (sqList L).sum / L.length - (L.sum / L.length) * (L.sum / L.length) := by
  have hn : (0 : ℝ) < L.length := by exact_mod_cast h
  have key := list_sq_sum_le L
  have hrw : (sqList L).sum / L.length - (L.sum / L.length) * (L.sum / L.length) =
      ((L.length : ℝ) * (sqList L).sum - L.sum * L.sum) / (L.length * L.length) := by
    field_simp
    ring
  rw [hrw]
  apply div_nonneg
  · linarith
  · positivity

/-- C3 counterexample: with window `w = 1`, after the 1st push (the w-th
push) the primitive reports full, yet `variance` is NaN (`none`) and not
the closed-form statistic `sumsq/w - mean² = 0` over the last 1 pushed
value, because `RollingStats::variance` additionally requires `count ≥ 2`.
So the claim as stated fails at `w = 1`. -/
theorem rolling_w1_variance_cex :
    ((RollingStats.init 1).pushAll [5]).full ∧
    ((RollingStats.init 1).pushAll [5]).variance = none ∧
    ((RollingStats.init 1).pushAll [5]).variance ≠
      some ((sqList (lastW 1 [5])).sum / 1 -
        ((lastW 1 [5]).sum / 1) * ((lastW 1 [5]).sum / 1)) := by
  have hpush : (RollingStats.init 1).pushAll [5] =
      ⟨(List.replicate 1 (0 : ℝ)).set 0 5, 1, 1 % 1, 1, 0 + 5, 0 + 5 * 5⟩ := by
    rw [RollingStats.pushAll, List.foldl_cons, List.foldl_nil, RollingStats.init,
      RollingStats.push, if_neg (by norm_num)]
  refine ⟨?_, ?_, ?_⟩
  · rw [hpush]; exact le_refl 1
  · rw [hpush, RollingStats.variance, if_pos (by norm_num)]
  · rw [hpush, RollingStats.variance, if_pos (by norm_num)]
    simp

/-- C3 (amended): for every windowed primitive with window w (over
`RollingStats` and `RollingSum`) and every push sequence, the full()-gated
output is NaN for the first w-1 pushes, and from the w-th push onward the
gate is open and sum and mean equal the closed-form statistic over exactly
the last w pushed values; variance = sumsq/w - mean², std = sqrt of that
variance and z-score(x) = (x-mean)/(std+ε) likewise equal their closed
forms over the last w pushed values provided `w ≥ 2` (for `w = 1` the
code's `count ≥ 2` guard keeps the variance family at NaN forever). -/
theorem rolling_window_closed_form (w : ℕ) (xs ys : List ℝ) (x : ℝ)
    (hw : 1 ≤ w) (hys : ys.length < w) (hxs : w ≤ xs.length) :
    rollingClosedFormProp w xs ys x := by
  obtain ⟨sw, sbl, spos, scount, ssum, ssq, -⟩ := rollingStats_inv w (by omega) xs
  obtain ⟨tw', -, -, tcount, -, -, -⟩ := rollingStats_inv w (by omega) ys
  have hsimX := toSum_pushAll (RollingStats.init w) xs
  have hsimY := toSum_pushAll (RollingStats.init w) ys
  rw [toSum_init] at hsimX hsimY
  set S := (RollingStats.init w).pushAll xs with hS
  set T := (RollingStats.init w).pushAll ys with hT
  have hmin : min xs.length w = w := by omega
  have hminY : min ys.length w = ys.length := by omega
  have hScount : S.count = w := by rw [scount, hmin]
  have hLlen : (lastW w xs).length = w := by rw [length_lastW, hmin]
  have hSmean : S.mean = some ((lastW w xs).sum / w) := by
    rw [RollingStats.mean, if_neg (by omega : ¬S.count = 0), hScount, ssum]
  refine ⟨⟨?_, ?_⟩, ?_, ?_, ?_, ?_, hSmean, ?_⟩
  · show ¬T.full
    rw [RollingStats.full, tw', tcount, hminY]
    omega
  · show ¬((RollingSum.init w).pushAll ys).full
    rw [← hsimY, RollingSum.full, RollingStats.toSum]
    show ¬(T.window ≤ T.count)
    rw [tw', tcount, hminY]
    omega
  · show S.full
    rw [RollingStats.full, sw, hScount]
  · show ((RollingSum.init w).pushAll xs).full
    rw [← hsimX]
    show S.window ≤ S.count
    rw [sw, hScount]
  · rw [← hsimX]
    show S.sum = (lastW w xs).sum
    exact ssum
  · rw [← hsimX, RollingSum.mean]
    simp only [RollingStats.toSum]
    rw [if_pos (by omega : 0 < S.count), hScount, ssum]
  · intro h2
    have hvar : S.variance = some ((sqList (lastW w xs)).sum / w -
        ((lastW w xs).sum / w) * ((lastW w xs).sum / w)) := by
      rw [RollingStats.variance, if_neg (by omega : ¬S.count < 2), hScount, ssum, ssq]
    have hV0 : 0 ≤ (sqList (lastW w xs)).sum / (w : ℝ) -
        ((lastW w xs).sum / w) * ((lastW w xs).sum / w) := by
      have h := closedVar_nonneg (lastW w xs) (by omega)
      rwa [hLlen] at h
    have hstd : S.std_dev = some (Real.sqrt ((sqList (lastW w xs)).sum / w -
        ((lastW w xs).sum / w) * ((lastW w xs).sum / w))) := by
      rw [RollingStats.std_dev, hvar]
      simp only
      rw [if_pos hV0]
    refine ⟨hvar, hstd, ?_⟩
    rw [RollingStats.zscore, if_neg (by omega : ¬S.count < S.window), hstd, hSmean]
    simp only [safe_divide]

/-- C3 witness: window 2, pushes [1] (gate closed) and [1, 2, 3] (gate
open, closed forms over the last 2 values). -/
theorem rolling_window_closed_form_witness :
    (1 ≤ 2 ∧ ([(1 : ℝ)]).length < 2 ∧ 2 ≤ ([(1 : ℝ), 2, 3]).length) ∧
    rollingClosedFormProp 2 [1, 2, 3] [1] 5 :=
  ⟨⟨by decide, by decide, by decide⟩,
    rolling_window_closed_form 2 [1, 2, 3] [1] 5 (by decide) (by decide) (by decide)⟩

/-- C7 counterexample: at a state with computed variance
`sq_sum/count - mean² = 1/2 - 25 = -49/2 < 0`, the code's `std_dev` is NaN
(`none`), whereas the claimed `sqrt(max(variance, 0))` is 0 — so the claim
that a negative computed variance yields std 0 is false on the code. -/
theorem stddev_negative_variance_cex :
    statsNegVarState.variance = some (-(49 / 2)) ∧
    Real.sqrt (max (-(49 / 2)) 0) = 0 ∧
    statsNegVarState.std_dev = none ∧
    statsNegVarState.std_dev ≠ some (Real.sqrt (max (-(49 / 2)) 0)) := by
  have hvar : statsNegVarState.variance = some (-(49 / 2)) := by
    rw [statsNegVarState, RollingStats.variance]
    norm_num
  have hstd : statsNegVarState.std_dev = none := by
    rw [RollingStats.std_dev, hvar]
    simp only
    rw [if_neg (by norm_num)]
  refine ⟨hvar, ?_, hstd, ?_⟩
  · rw [max_eq_right (by norm_num), Real.sqrt_zero]
  · rw [hstd]
    simp

/-- C7 (amended): for **every** state of the windowed variance/std
primitive and every query value x: variance = sumsq/count - mean² once
`count ≥ 2` and NaN below that (hence std is NaN below count 2 as well);
std = sqrt(variance) when the computed variance is nonnegative and NaN —
not 0 — when it is negative; and z-score(x) = (x - mean)/(std + ε),
defined only once the window is full and NaN otherwise (and NaN, even
when full, whenever std itself is NaN). -/
theorem stats_state_formulas (s : RollingStats) (x : ℝ) :
    statsFormulaProp s x := by
  have hvarlow : s.count < 2 → s.variance = none := fun h => by
    rw [RollingStats.variance, if_pos h]
  have hvar : 2 ≤ s.count → s.variance = some (computedVar s) := fun h2 => by
    rw [RollingStats.variance, if_neg (by omega : ¬s.count < 2), computedVar]
  have hstdlow : s.count < 2 → s.std_dev = none := fun h => by
    rw [RollingStats.std_dev, hvarlow h]
  have hstdpos : 2 ≤ s.count → 0 ≤ computedVar s →
      s.std_dev = some (Real.sqrt (computedVar s)) := fun h2 h0 => by
    rw [RollingStats.std_dev, hvar h2]
    simp only
    rw [if_pos h0]
  have hstdneg : 2 ≤ s.count → computedVar s < 0 → s.std_dev = none :=
    fun h2 h0 => by
      rw [RollingStats.std_dev, hvar h2]
      simp only
      rw [if_neg (by linarith)]
  refine ⟨fun h => ⟨hvarlow h, hstdlow h⟩, hvar, hstdpos, hstdneg,
    ?_, ?_, ?_, ?_⟩
  · intro hnf
    rw [RollingStats.zscore, if_pos hnf]
  · intro hfull h1
    rw [RollingStats.zscore, if_neg (by omega : ¬s.count < s.window),
      hstdlow h1]
  · intro hfull h2 h0
    have hmean : s.mean = some (s.sum / s.count) := by
      rw [RollingStats.mean, if_neg (by omega : ¬s.count = 0)]
    rw [RollingStats.zscore, if_neg (by omega : ¬s.count < s.window),
      hstdpos h2 h0, hmean]
    simp only [safe_divide]
  · intro hfull h2 h0
    rw [RollingStats.zscore, if_neg (by omega : ¬s.count < s.window),
      hstdneg h2 h0]

/-- C7 witness: the theorem applied at two concrete states — a full
window-2 state (values 1 and 2, sum 3, sum of squares 5) exercising the
formula branches, and a one-element window-2 state exercising the NaN
branches. -/
theorem stats_state_formulas_witness :
    statsFormulaProp statsWitState 0 ∧ statsFormulaProp statsSmallState 1 :=
  ⟨stats_state_formulas statsWitState 0, stats_state_formulas statsSmallState 1⟩

/-- C5 counterexample: on a zero-range bar (`open = high = low = close`),
`range = EPS` and all three segment ratios are 0, so
`upper_wick + body_ratio + lower_wick = 0`, which is not within 0.01 of
1.0 — the claim fails exactly on the bars it explicitly includes. -/
theorem intrabar_partition_cex :
    ¬|intrabarUpper zeroRangeBar + intrabarBody zeroRangeBar +
        intrabarLower zeroRangeBar - 1| ≤ 1 / 100 := by
  have hsum : intrabarUpper zeroRangeBar + intrabarBody zeroRangeBar +
      intrabarLower zeroRangeBar = 0 := by
    rw [intrabarUpper, intrabarBody, intrabarLower, intrabarRange, zeroRangeBar]
    norm_num
  rw [hsum]
  norm_num

/-- C5 (amended): for every bar whose range satisfies
`high - low ≥ 99·ε` (ε = 1e-9), the Intrabar outputs satisfy
`upper_wick + body_ratio + lower_wick` within 0.01 of 1.0: the three
segments partition the high-low range up to the ε padding of the
denominator (the sum is exactly `(high-low)/(high-low+ε)`), so the bound
fails only on (near-)zero-range bars such as `high = low`. -/
theorem intrabar_partition (b : OHLCVBar)
    (hb : (99 / 1000000000 : ℚ) ≤ b.high - b.low) :
    |intrabarUpper b + intrabarBody b + intrabarLower b - 1| ≤ 1 / 100 := by
  set d : ℝ := (b.high : ℝ) - (b.low : ℝ) with hd
  have hEPS : EPS = 1 / 1000000000 := rfl
  have hd99 : 99 * EPS ≤ d := by
    have h := (Rat.cast_le (K := ℝ)).2 hb
    push_cast at h
    rw [hEPS]
    linarith
  have hEpos : (0 : ℝ) < EPS := by rw [hEPS]; norm_num
  have hdpos : 0 < d + EPS := by nlinarith
  have habs : |(b.close : ℝ) - (b.open' : ℝ)| =
      max (b.open' : ℝ) (b.close : ℝ) - min (b.open' : ℝ) (b.close : ℝ) := by
    rw [max_sub_min_eq_abs, abs_sub_comm]
  have hsum : intrabarUpper b + intrabarBody b + intrabarLower b = d / (d + EPS) := by
    rw [intrabarUpper, intrabarBody, intrabarLower, intrabarRange, habs, ← hd]
    rw [div_add_div_same, div_add_div_same]
    congr 1
    ring
  rw [hsum]
  have h1 : d / (d + EPS) - 1 = -(EPS / (d + EPS)) := by
    field_simp
  rw [h1, abs_neg, abs_of_nonneg (div_nonneg hEpos.le hdpos.le)]
  rw [div_le_div_iff₀ hdpos (by norm_num : (0 : ℝ) < 100)]
  linarith

/-- C5 witness: a bar with unit range. -/
theorem intrabar_partition_witness :
    (99 / 1000000000 : ℚ) ≤ unitRangeBar.high - unitRangeBar.low ∧
    |intrabarUpper unitRangeBar + intrabarBody unitRangeBar +
        intrabarLower unitRangeBar - 1| ≤ 1 / 100 :=
  ⟨by norm_num [unitRangeBar], intrabar_partition unitRangeBar (by norm_num [unitRangeBar])⟩

/-- the index variance of the slope regression exceeds EPS whenever the
window has at least two slots. -/
theorem slope_den_lb (s : RollingSlope) (hw : 2 ≤ s.window) : EPS < s.den := by
  have h0 : ∀ i ∈ Finset.range s.window,
      0 ≤ ((i : ℝ) - s.xmean) * ((i : ℝ) - s.xmean) :=
    fun i _ => mul_self_nonneg _
  have hmem : (0 : ℕ) ∈ Finset.range s.window := Finset.mem_range.2 (by omega)
  have hterm := Finset.single_le_sum h0 hmem
  have hw2 : (2 : ℝ) ≤ s.window := by exact_mod_cast hw
  have hq : (1 / 4 : ℝ) ≤ (((0 : ℕ) : ℝ) - s.xmean) * (((0 : ℕ) : ℝ) - s.xmean) := by
    rw [RollingSlope.xmean]
    push_cast
    nlinarith
  have hEPS : EPS < 1 / 4 := by rw [EPS]; norm_num
  calc EPS < 1 / 4 := hEPS
    _ ≤ _ := hq
    _ ≤ s.den := hterm

/-- C6 counterexample: the full window-2 slope state over the values 0, 1
has `num = den = 1/2`, so `RollingSlope::slope` returns `num/den = 1` by a
raw division behind the `den > EPS` conditional, while the spec's
universally-ε-padded form would give `(1/2)/(1/2 + 1e-9) ≠ 1` — so it is
not the case that every indicator ratio uses the ε-guarded denominator. -/
theorem slope_not_eps_guarded_cex :
    slopeCexState.slope = some 1 ∧
    slopeSpecGuarded slopeCexState ≠ slopeCexState.slope := by
  have hfull : slopeCexState.full := by decide
  have hwin : slopeCexState.window = 2 := rfl
  have hpos2 : slopeCexState.pos = 0 := rfl
  have hbuf : slopeCexState.buf = [0, 1] := rfl
  have hxm : slopeCexState.xmean = 1 / 2 := by
    rw [RollingSlope.xmean, hwin]
    norm_num
  have hym : slopeCexState.ymean = 1 / 2 := by
    rw [RollingSlope.ymean, hwin, hpos2, hbuf]
    rw [Finset.sum_range_succ, Finset.sum_range_succ, Finset.sum_range_zero]
    norm_num [List.getD]
  have hden : slopeCexState.den = 1 / 2 := by
    rw [RollingSlope.den, hwin, hxm]
    rw [Finset.sum_range_succ, Finset.sum_range_succ, Finset.sum_range_zero]
    push_cast
    norm_num
  have hnum : slopeCexState.num = 1 / 2 := by
    rw [RollingSlope.num, hwin, hxm, hym, hpos2, hbuf]
    rw [Finset.sum_range_succ, Finset.sum_range_succ, Finset.sum_range_zero]
    norm_num [List.getD]
  have hgt : EPS < slopeCexState.den := by rw [hden, EPS]; norm_num
  have hslope : slopeCexState.slope = some 1 := by
    rw [RollingSlope.slope, if_neg (not_not_intro hfull), if_pos hgt, hnum, hden]
    norm_num
  refine ⟨hslope, ?_⟩
  rw [slopeSpecGuarded, if_neg (not_not_intro hfull), hnum, hden, hslope]
  rw [safe_divide, EPS]
  intro h
  rw [Option.some.injEq] at h
  norm_num at h

/-- C6 (amended): for every finite numerator n, `safe_divide(n, 0)` equals
`n/ε = n·10⁹`, a finite real (no infinity arises in the exact model, and
no exception is possible); division by zero denominators is guarded
throughout, but not always by the `+ε` pad: `RollingSlope::slope` guards a
raw division with the conditional `den > EPS` — its index-variance
denominator exceeds EPS for every window of at least 2 slots — and
returns `num/den`, not `num/(den+ε)`. -/
theorem safe_divide_and_slope_guard (n : ℝ) (s : RollingSlope)
    (hf : s.full) (hw : 2 ≤ s.window) :
    safe_divide n 0 = n * 1000000000 ∧
    EPS < s.den ∧
    s.slope = some (s.num / s.den) := by
  have hden := slope_den_lb s hw
  refine ⟨?_, hden, ?_⟩
  · rw [safe_divide, zero_add, EPS, one_div, div_inv_eq_mul]
  · rw [RollingSlope.slope, if_neg (not_not_intro hf), if_pos hden]

/-- C6 witness: the concrete full window-2 slope state and numerator 7. -/
theorem safe_divide_and_slope_guard_witness :
    (RollingSlope.full slopeCexState ∧ 2 ≤ slopeCexState.window) ∧
    (safe_divide 7 0 = 7 * 1000000000 ∧
      EPS < slopeCexState.den ∧
      slopeCexState.slope = some (slopeCexState.num / slopeCexState.den)) :=
  ⟨⟨by decide, by decide⟩,
    safe_divide_and_slope_guard 7 slopeCexState (by decide) (by decide)⟩

/-! ### Pipeline structure: lengths and positional bar ids -/

theorem length_runCalc {σ : Type} (step : ℕ → σ → σ × List (String × FVal)) :
    ∀ (todo i : ℕ) (st : σ), (runCalc step todo i st).length = todo
  | 0, _, _ => rfl
  | todo + 1, i, st => by
    simp only [runCalc, List.length_cons]
    rw [length_runCalc step todo]

theorem length_applyWrites (rs : List IndicatorResult) (ws : List FeatureMap) :
    (applyWrites rs ws).length = min rs.length ws.length := by
  simp [applyWrites]

theorem map_barId_applyWrites :
    ∀ (rs : List IndicatorResult) (ws : List FeatureMap),
      ws.length = rs.length →
      (applyWrites rs ws).map (fun r => r.bar_id) = rs.map (fun r => r.bar_id)
  | [], _, _ => rfl
  | r :: rs, w :: ws, h => by
    simp only [applyWrites, List.zipWith_cons_cons, List.map_cons]
    rw [← applyWrites, map_barId_applyWrites rs ws (by simpa using h)]
  | _ :: _, [], h => by simp at h

theorem length_returnsWrites (bars : List OHLCVBar) :
    (returnsWrites bars).length = bars.length :=
  length_runCalc _ _ _ _

theorem length_volatilityWrites (bars : List OHLCVBar) (r1s : List FVal) :
    (volatilityWrites bars r1s).length = bars.length :=
  length_runCalc _ _ _ _

theorem length_volumeWrites (bars : List OHLCVBar) :
    (volumeWrites bars).length = bars.length :=
  length_runCalc _ _ _ _

theorem length_anchorWrites (bars : List OHLCVBar) :
    (anchorWrites bars).length = bars.length :=
  length_runCalc _ _ _ _

theorem length_intrabarWrites (bars : List OHLCVBar) :
    (intrabarWrites bars).length = bars.length := by
  simp [intrabarWrites]

theorem length_todWrites (bars : List OHLCVBar) :
    (todWrites bars).length = bars.length := by
  simp [todWrites]

theorem map_barId_talibCompute (rs : List IndicatorResult) :
    (talibCompute rs).map (fun r => r.bar_id) = rs.map (fun r => r.bar_id) := by
  simp [talibCompute, List.map_map]

theorem length_talibCompute (rs : List IndicatorResult) :
    (talibCompute rs).length = rs.length := by
  simp [talibCompute]

theorem pipeline_barIds (bars : List OHLCVBar) :
    (pipelineCompute bars).map (fun r => r.bar_id) = bars.map OHLCVBar.id := by
  by_cases hb : bars = []
  · subst hb
    simp [pipelineCompute]
  · simp only [pipelineCompute, if_neg hb]
    set n := bars.length with hn
    set res0 := bars.map (fun b => IndicatorResult.mk b.id []) with hres0
    have l0 : res0.length = n := by simp [hres0]
    have m0 : res0.map (fun r => r.bar_id) = bars.map OHLCVBar.id := by
      simp [hres0, List.map_map]
    set res1 := applyWrites res0 (returnsWrites bars) with hres1
    have l1 : res1.length = n := by
      rw [hres1, length_applyWrites, l0, length_returnsWrites, hn, min_self]
    have m1 : res1.map (fun r => r.bar_id) = res0.map (fun r => r.bar_id) :=
      map_barId_applyWrites _ _ (by rw [length_returnsWrites, l0])
    set res2 := applyWrites res1 (volatilityWrites bars (r1Series bars)) with hres2
    have l2 : res2.length = n := by
      rw [hres2, length_applyWrites, l1, length_volatilityWrites, hn, min_self]
    have m2 : res2.map (fun r => r.bar_id) = res1.map (fun r => r.bar_id) :=
      map_barId_applyWrites _ _ (by rw [length_volatilityWrites, l1])
    set res3 := applyWrites res2 (volumeWrites bars) with hres3
    have l3 : res3.length = n := by
      rw [hres3, length_applyWrites, l2, length_volumeWrites, hn, min_self]
    have m3 : res3.map (fun r => r.bar_id) = res2.map (fun r => r.bar_id) :=
      map_barId_applyWrites _ _ (by rw [length_volumeWrites, l2])
    set res4 := applyWrites res3 (intrabarWrites bars) with hres4
    have l4 : res4.length = n := by
      rw [hres4, length_applyWrites, l3, length_intrabarWrites, hn, min_self]
    have m4 : res4.map (fun r => r.bar_id) = res3.map (fun r => r.bar_id) :=
      map_barId_applyWrites _ _ (by rw [length_intrabarWrites, l3])
    set res5 := applyWrites res4 (anchorWrites bars) with hres5
    have l5 : res5.length = n := by
      rw [hres5, length_applyWrites, l4, length_anchorWrites, hn, min_self]
    have m5 : res5.map (fun r => r.bar_id) = res4.map (fun r => r.bar_id) :=
      map_barId_applyWrites _ _ (by rw [length_anchorWrites, l4])
    set res6 := applyWrites res5 (todWrites bars) with hres6
    have m6 : res6.map (fun r => r.bar_id) = res5.map (fun r => r.bar_id) :=
      map_barId_applyWrites _ _ (by rw [length_todWrites, l5])
    rw [map_barId_talibCompute, m6, m5, m4, m3, m2, m1, m0]

theorem pipeline_length (bars : List OHLCVBar) :
    (pipelineCompute bars).length = bars.length := by
  have h := congrArg List.length (pipeline_barIds bars)
  simpa using h

/-- C2: for every input bar sequence the pipeline returns one result per
bar with `results[i].bar_id = bars[i].id` at every position, and on the
empty input it short-circuits to the empty output before any calculator
stage is invoked (the `if` in `Pipeline::compute` returns ahead of the
stage calls). -/
theorem pipeline_positional (bars : List OHLCVBar) :
    pipelineCompute [] = [] ∧
    (pipelineCompute bars).length = bars.length ∧
    ∀ i, i < bars.length →
      ((pipelineCompute bars).getD i default).bar_id = (bars.getD i default).id := by
  refine ⟨by simp [pipelineCompute], pipeline_length bars, ?_⟩
  intro i hi
  have h1 : ((pipelineCompute bars).map (fun r => r.bar_id)).getD i 0 =
      ((pipelineCompute bars).getD i default).bar_id := by
    rw [getD_map_of_lt _ _ _ _ default (by rw [pipeline_length]; exact hi)]
  have h2 : ((bars.map OHLCVBar.id).getD i 0) = (bars.getD i default).id := by
    rw [getD_map_of_lt _ _ _ _ default hi]
  rw [← h1, pipeline_barIds, h2]

/-- C2 witness: two concrete bars, checked at index 1. -/
theorem pipeline_positional_witness :
    1 < bars2.length ∧
    ((pipelineCompute bars2).getD 1 default).bar_id = (bars2.getD 1 default).id :=
  ⟨by decide, (pipeline_positional bars2).2.2 1 (by decide)⟩

/-! ### Feature-map lookup lemmas -/

theorem lookup_map_overwrite (k : String) (v : FVal) :
    ∀ (fs : FeatureMap), (fs.any (fun p => p.1 = k)) = true →
      (fs.map (fun p => if p.1 = k then (k, v) else p)).lookup k = some v
  | [], h => by simp at h
  | (k', v') :: t, h => by
    simp only [List.map_cons]
    by_cases hk : k' = k
    · subst hk
      rw [if_pos rfl]
      simp [List.lookup]
    · rw [if_neg (show ¬(k', v').1 = k from hk)]
      have ht : (t.any (fun p => p.1 = k)) = true := by
        simp only [List.any_cons, Bool.or_eq_true, decide_eq_true_eq] at h
        rcases h with h | h
        · exact absurd h hk
        · exact h
      have hb : (k == k') = false := beq_eq_false_iff_ne.mpr (fun hh => hk hh.symm)
      simp only [List.lookup, hb]
      exact lookup_map_overwrite k v t ht

theorem lookup_append_new (k : String) (v : FVal) :
    ∀ (fs : FeatureMap), (fs.any (fun p => p.1 = k)) = false →
      (fs ++ [(k, v)]).lookup k = some v
  | [], _ => by simp [List.lookup]
  | (k', v') :: t, h => by
    simp only [List.any_cons, Bool.or_eq_false_iff, decide_eq_false_iff_not] at h
    have hb : (k == k') = false := beq_eq_false_iff_ne.mpr (fun hh => h.1 hh.symm)
    simp only [List.cons_append, List.lookup, hb]
    exact lookup_append_new k v t (by simpa using h.2)

theorem lookup_setF_self (fs : FeatureMap) (k : String) (v : FVal) :
    (setF fs k v).lookup k = some v := by
  rw [setF]
  by_cases h : (fs.any (fun p => p.1 = k)) = true
  · rw [if_pos h]
    exact lookup_map_overwrite k v fs h
  · rw [if_neg h]
    exact lookup_append_new k v fs (Bool.eq_false_iff.mpr h)

theorem lookup_map_overwrite_ne (k' k : String) (v : FVal) (hne : k' ≠ k) :
    ∀ (fs : FeatureMap),
      (fs.map (fun p => if p.1 = k then (k, v) else p)).lookup k' = fs.lookup k'
  | [] => rfl
  | (k₁, v₁) :: t => by
    simp only [List.map_cons]
    by_cases h1 : k₁ = k
    · rw [if_pos (show (k₁, v₁).1 = k from h1)]
      have hb : (k' == k) = false := beq_eq_false_iff_ne.mpr hne
      have hb1 : (k' == k₁) = false := beq_eq_false_iff_ne.mpr (h1 ▸ hne)
      simp only [List.lookup, hb, hb1]
      exact lookup_map_overwrite_ne k' k v hne t
    · rw [if_neg (show ¬(k₁, v₁).1 = k from h1)]
      by_cases h2 : (k' == k₁) = true
      · simp only [List.lookup, h2]
      · have hb : (k' == k₁) = false := by simpa using h2
        simp only [List.lookup, hb]
        exact lookup_map_overwrite_ne k' k v hne t

theorem lookup_append_ne (k' k : String) (v : FVal) (hne : k' ≠ k) :
    ∀ (fs : FeatureMap), (fs ++ [(k, v)]).lookup k' = fs.lookup k'
  | [] => by
    have hb : (k' == k) = false := beq_eq_false_iff_ne.mpr hne
    simp [List.lookup, hb]
  | (k₁, v₁) :: t => by
    simp only [List.cons_append]
    by_cases h2 : (k' == k₁) = true
    · simp only [List.lookup, h2]
    · have hb : (k' == k₁) = false := by simpa using h2
      simp only [List.lookup, hb]
      exact lookup_append_ne k' k v hne t

theorem lookup_setF_ne (fs : FeatureMap) (k' k : String) (v : FVal) (hne : k' ≠ k) :
    (setF fs k v).lookup k' = fs.lookup k' := by
  rw [setF]
  by_cases h : (fs.any (fun p => p.1 = k)) = true
  · rw [if_pos h]
    exact lookup_map_overwrite_ne k' k v hne fs
  · rw [if_neg h]
    exact lookup_append_ne k' k v hne fs

theorem setMany_cons (fs : FeatureMap) (kv : String × FVal) (ws : List (String × FVal)) :
    setMany fs (kv :: ws) = setMany (setF fs kv.1 kv.2) ws := rfl

/-- names not in the write list are untouched by the fold. -/
theorem lookup_setMany_notmem :
    ∀ (names : List String) (fs : FeatureMap) (nm : String), nm ∉ names →
      (setMany fs (names.map (fun n => (n, (none : FVal))))).lookup nm = fs.lookup nm
  | [], _, _, _ => rfl
  | n :: ns, fs, nm, h => by
    rw [List.map_cons, setMany_cons]
    have h1 : nm ∉ ns := fun hh => h (List.mem_cons_of_mem _ hh)
    have h2 : nm ≠ n := fun hh => h (hh ▸ List.mem_cons_self n ns)
    rw [lookup_setMany_notmem ns _ nm h1]
    exact lookup_setF_ne fs nm n none h2

/-- after folding NaN-writes for a list of names over a feature map, every
name in the list is present with value NaN. -/
theorem lookup_setMany_none_mem :
    ∀ (names : List String) (fs : FeatureMap) (nm : String), nm ∈ names →
      (setMany fs (names.map (fun n => (n, (none : FVal))))).lookup nm = some none
  | [], _, _, h => by simp at h
  | n :: ns, fs, nm, h => by
    rw [List.map_cons, setMany_cons]
    by_cases hns : nm ∈ ns
    · exact lookup_setMany_none_mem ns (setF fs n none) nm hns
    · have hnm : nm = n := by
        rcases List.mem_cons.1 h with h1 | h1
        · exact h1
        · exact absurd h1 hns
      subst hnm
      rw [lookup_setMany_notmem ns _ nm hns]
      exact lookup_setF_self fs nm none

attribute [irreducible] setF setMany

/-- C8 counterexample: `vwap` is one of the feature names the real TA-Lib
binding writes (unconditionally, in `compute_volume`), but after the
fallback stage runs on a bar with no prior features, `vwap` is absent
altogether (lookup yields no entry, rather than an entry holding NaN):
the fallback populates only its 24 hardcoded names, not every name the
real binding would produce. -/
theorem talib_fallback_missing_name_cex :
    "vwap" ∈ talibRealNames ∧
    ((talibCompute [⟨1, []⟩]).getD 0 default).features.lookup "vwap" = none := by
  constructor
  · simp [talibRealNames]
  · have hlt : (0 : ℕ) < ([(⟨1, []⟩ : IndicatorResult)]).length := by decide
    have hmap : talibCompute [⟨1, []⟩] = ([(⟨1, []⟩ : IndicatorResult)]).map
        (fun r => (⟨r.bar_id, setMany r.features
          (talibFallbackNames.map (fun nm => (nm, (none : FVal))))⟩ : IndicatorResult)) := rfl
    rw [hmap, getD_map_of_lt _ _ 0 default default hlt]
    have hnot : "vwap" ∉ talibFallbackNames := by simp [talibFallbackNames]
    exact (lookup_setMany_notmem talibFallbackNames _ "vwap" hnot).trans rfl

/-- C8 (amended): when the external indicator library is unavailable, the
fallback branch of `TALibCalculator::compute` sets each of its 24
hardcoded feature names to NaN for every bar (row count preserved, so the
pipeline does not fail for this reason); the remaining ~39 names the real
binding would produce are absent from the feature maps, not NaN. -/
theorem talib_fallback_nan (results : List IndicatorResult) (i : ℕ) (nm : String)
    (hi : i < results.length) (hnm : nm ∈ talibFallbackNames) :
    ((talibCompute results).getD i default).features.lookup nm = some none ∧
    (talibCompute results).length = results.length := by
  refine ⟨?_, length_talibCompute results⟩
  have hmap : talibCompute results = results.map
      (fun r => (⟨r.bar_id, setMany r.features
        (talibFallbackNames.map (fun nm => (nm, (none : FVal))))⟩ : IndicatorResult)) := rfl
  rw [hmap, getD_map_of_lt _ _ i default default hi]
  exact lookup_setMany_none_mem talibFallbackNames _ nm hnm

/-- C8 witness: one bar, name `rsi_14`. -/
theorem talib_fallback_nan_witness :
    ((0 : ℕ) < ([(⟨1, []⟩ : IndicatorResult)]).length ∧
      "rsi_14" ∈ talibFallbackNames) ∧
    (((talibCompute [⟨1, []⟩]).getD 0 default).features.lookup "rsi_14" = some none ∧
      (talibCompute [(⟨1, []⟩ : IndicatorResult)]).length = [(⟨1, []⟩ : IndicatorResult)].length) :=
  ⟨⟨by decide, by decide⟩, talib_fallback_nan [⟨1, []⟩] 0 "rsi_14" (by decide) (by decide)⟩

set_option maxRecDepth 16000 in
/-- C1: when the store holds bars with ids 1..100 (in bar order) of which
exactly ids 1..40 already have persisted features, the coordinator runs
the pipeline over all 100 bars, requests persistence of exactly the
pipeline results with ids 41..100 — 60 rows, in ascending bar order, as a
single batch — and returns skipped = 40 and computed = the sum of the
store-reported affected-row counts over the issued batches (here the
single batch's report). -/
theorem coordinator_gap_fill (bars : List OHLCVBar) (existing : Finset ℤ)
    (upsert : List IndicatorResult → ℤ)
    (hid : bars.map OHLCVBar.id = intRange 1 100)
    (hex : existing = (intRange 1 40).toFinset) :
    let tw := (pipelineCompute bars).filter
      (fun r => r.bar_id ∈ ((bars.map OHLCVBar.id).toFinset \ existing))
    computeForTicker bars existing upsert = (⟨upsert tw, 40⟩, [tw]) ∧
    tw.map (fun r => r.bar_id) = intRange 41 60 ∧
    tw.length = 60 := by
  intro tw
  have hne : bars ≠ [] := by
    intro h
    rw [h] at hid
    simp [intRange] at hid
  have hmapids : tw.map (fun r => r.bar_id) = intRange 41 60 := by
    show ((pipelineCompute bars).filter
      (fun r => decide (r.bar_id ∈ ((bars.map OHLCVBar.id).toFinset \ existing)))).map
        (fun r => r.bar_id) = intRange 41 60
    rw [map_filter_comm (pipelineCompute bars) (fun r => r.bar_id)
      (fun id => decide (id ∈ ((bars.map OHLCVBar.id).toFinset \ existing)))]
    rw [pipeline_barIds, hid, hex]
    decide
  have hlen : tw.length = 60 := by
    have := congrArg List.length hmapids
    simpa [intRange] using this
  have htwne : tw ≠ [] := by
    intro h
    rw [h] at hlen
    simp at hlen
  have hchunks : chunks5000 tw = [tw] := by
    rw [chunks5000_ne_nil tw htwne,
      List.drop_eq_nil_of_le (by omega : tw.length ≤ 5000), chunks5000_nil,
      List.take_of_length_le (by omega : tw.length ≤ 5000)]
  refine ⟨?_, hmapids, hlen⟩
  simp only [computeForTicker]
  rw [if_neg hne]
  rw [if_neg (show ¬((bars.map OHLCVBar.id).toFinset \ existing) = ∅ by
    rw [hid, hex]; decide)]
  rw [hchunks]
  simp only [List.map_cons, List.map_nil, List.sum_cons, List.sum_nil, add_zero]
  rw [hex]
  norm_num
  decide

set_option maxRecDepth 16000 in
/-- C1 witness: 100 concrete bars with ids 1..100, the feature store
holding ids 1..40, and a store reporting the batch length as its
affected-row count. -/
theorem coordinator_gap_fill_witness :
    bars100.map OHLCVBar.id = intRange 1 100 ∧
    (let tw := (pipelineCompute bars100).filter
      (fun r => r.bar_id ∈ ((bars100.map OHLCVBar.id).toFinset \
        (intRange 1 40).toFinset))
    computeForTicker bars100 ((intRange 1 40).toFinset) (fun l => (l.length : ℤ)) =
      (⟨(tw.length : ℤ), 40⟩, [tw]) ∧
    tw.map (fun r => r.bar_id) = intRange 41 60 ∧
    tw.length = 60) :=
  ⟨by decide,
    coordinator_gap_fill bars100 ((intRange 1 40).toFinset)
      (fun l => (l.length : ℤ)) (by decide) rfl⟩

end IndicatorEngine
